import Mathlib

/-!
Verification development for the retrieval subsystem of the backend-rag-bot
repository: a shallow embedding of `app/services/vector_store.py` and
`app/services/rag_service.py`, together with theorems settling the frozen
claims about the vector store (embedding fallback, persistence loading,
document addition and removal, nearest-neighbour search, clearing) and the
RAG orchestration (query expansion, source grouping, conversation memory).

Modelling conventions:
- numpy float32 vectors are modelled as lists of rationals (`Vec`); the
  claims under study depend only on ordering and counting of distances,
  never on float rounding.
- Python exceptions that escape a function are modelled with `Except`;
  the exception classes that matter to the claims are `PyErr`.
- The embedding model call (`SentenceTransformer.encode`) is an external
  collaborator: it is passed in as a function that either produces the
  batch of vectors or fails (raises).  Likewise `np.random.randn` is
  modelled by an ambient random source `rng`, and the Ollama LLM call by
  a function that produces a completion or fails.
- The three persisted artifacts (`index.faiss`, `documents.pkl`,
  `metadata.pkl`) are modelled by `Disk`: for each artifact, `none` means
  the file does not exist, `some none` means it exists but reading it
  raises, and `some (some x)` means reading it yields `x`.
-/

/-- An embedding vector (numpy float32 row, modelled over the rationals). -/
abbrev Vec : Type := List ℚ

/-- A chunk record as produced by the document processor and stored in
`VectorStore.documents` (the dict with keys text/filename/file_type/
file_path/chunk_id/total_chunks). -/
structure Doc where
  text : String
  filename : String
  file_type : String
  file_path : String
  chunk_id : ℕ
  total_chunks : ℕ
deriving DecidableEq

/-- A metadata record: the chunk dict augmented with the doc_id key, as
built in `VectorStore.add_documents`. -/
structure Meta where
  doc_id : ℕ
  doc : Doc
deriving DecidableEq

/-- The persisted artifacts directory.  For each artifact: `none` = file
absent, `some none` = file present but reading raises, `some (some x)` =
reading succeeds with value `x`. -/
structure Disk where
  indexFile : Option (Option (List Vec))
  docsFile : Option (Option (List Doc))
  metaFile : Option (Option (List Meta))
deriving DecidableEq

/-- The in-memory state of the `VectorStore` singleton: the FAISS index
(`none` = `self.index is None`, `some vecs` = an IndexFlatL2 holding
`vecs` in insertion order), the two parallel arrays, and the artifact
directory it persists to. -/
structure StoreState where
  index : Option (List Vec)
  documents : List Doc
  metadata : List Meta
  disk : Disk
deriving DecidableEq

/-- Python exceptions relevant to the claims: the spec's
EmbeddingUnavailable failure, and IndexError from list indexing. -/
inductive PyErr where
  | embeddingUnavailable
  | indexError
deriving DecidableEq

/-- The number of vectors held by the FAISS index (`index.ntotal`,
0 when `self.index is None`). -/
def VectorStore.ntotal (s : StoreState) : ℕ := (s.index.getD []).length

/-- One row of `np.random.randn(len(texts), 384)`: 384 draws from the
ambient random source. -/
def randVec (rng : ℕ → ℕ → ℚ) (i : ℕ) : Vec := (List.range 384).map (rng i)

/-- The full fallback matrix `np.random.randn(n, 384)`. -/
def randVecs (rng : ℕ → ℕ → ℚ) (n : ℕ) : List Vec := (List.range n).map (randVec rng)

/-- `VectorStore.create_embeddings` (vector_store.py lines 42-64).
`model` is the `SentenceTransformer.encode` collaborator; `.error` means
the model call raises.  The source wraps the model call in try/except and
in the except branch returns `np.random.randn(len(texts), 384)` instead
of re-raising, so the function never propagates an exception. -/
def create_embeddings (model : List String → Except Unit (List Vec))
    (rng : ℕ → ℕ → ℚ) (texts : List String) : Except PyErr (List Vec) :=
  if texts.isEmpty then .ok []
  else
    match model texts with
    | .ok embeddings => .ok embeddings
    | .error _ => .ok (randVecs rng texts.length)

/-- `VectorStore.save_index` (lines 145-175): when the index is not None,
writes the three artifacts (each write failure is only printed, so writes
are modelled as succeeding); when the index is None it writes nothing. -/
def VectorStore.save_index (s : StoreState) : StoreState :=
  match s.index with
  | some ix =>
    { s with disk := ⟨some (some ix), some (some s.documents), some (some s.metadata)⟩ }
  | none => s

/-- `VectorStore.load_index` (lines 177-200): if the index and documents
files both exist, read index, documents and metadata in order inside one
try block; on any read failure (including the metadata file being absent,
which makes `open` raise) reset all three in-memory structures to empty.
If either of the first two files is absent, leave the state unchanged.
There is no validation comparing `index.ntotal` with `len(documents)`. -/
def VectorStore.load_index (s : StoreState) : StoreState :=
  match s.disk.indexFile, s.disk.docsFile with
  | some ixRead, some dsRead =>
    (match ixRead, dsRead, s.disk.metaFile with
     | some ix, some ds, some (some ms) =>
       { s with index := some ix, documents := ds, metadata := ms }
     | _, _, _ => { s with index := none, documents := [], metadata := [] })
  | _, _ => s

/-- `VectorStore.add_documents` (lines 66-101).  Note the source computes
the metadata records with `len(self.documents) - 1` AFTER having extended
`self.documents`, so every record of a batch receives the same doc_id. -/
def VectorStore.add_documents (model : List String → Except Unit (List Vec))
    (rng : ℕ → ℕ → ℚ) (s : StoreState) (docs : List Doc) : Except PyErr StoreState :=
  if docs.isEmpty then .ok s
  else
    match create_embeddings model rng (docs.map (·.text)) with
    | .error e => .error e
    | .ok embeddings =>
      let index' : List Vec := (s.index.getD []) ++ embeddings
      let documents' := s.documents ++ docs
      let metadata' := s.metadata ++ docs.map (fun d => ⟨documents'.length - 1, d⟩)
      .ok (VectorStore.save_index
        { s with index := some index', documents := documents', metadata := metadata' })

/-- Squared L2 distance, the metric of `faiss.IndexFlatL2`. -/
def l2sq (u v : Vec) : ℚ := ((List.zip u v).map (fun p => (p.1 - p.2) * (p.1 - p.2))).sum

/-- The ordering used to rank FAISS results: ascending distance, ties
broken by lower ordinal position. -/
def distLE : (ℚ × ℤ) → (ℚ × ℤ) → Prop :=
  fun a b => a.1 < b.1 ∨ (a.1 = b.1 ∧ a.2 ≤ b.2)

instance : DecidableRel distLE := fun a b => by unfold distLE; infer_instance

instance : IsTrans (ℚ × ℤ) distLE where
  trans a b c hab hbc := by
    rcases hab with h1 | ⟨h1, h1'⟩ <;> rcases hbc with h2 | ⟨h2, h2'⟩
    · exact Or.inl (lt_trans h1 h2)
    · exact Or.inl (h2 ▸ h1)
    · exact Or.inl (h1 ▸ h2)
    · exact Or.inr ⟨h1.trans h2, le_trans h1' h2'⟩

instance : IsTotal (ℚ × ℤ) distLE where
  total a b := by
    rcases lt_trichotomy a.1 b.1 with h | h | h
    · exact Or.inl (Or.inl h)
    · rcases le_total a.2 b.2 with h' | h'
      · exact Or.inl (Or.inr ⟨h, h'⟩)
      · exact Or.inr (Or.inr ⟨h.symm, h'⟩)
    · exact Or.inr (Or.inl h)

/-- The padding value FAISS uses for missing results when `k > ntotal`
(FLT_MAX distance, index -1). -/
def FLT_MAX : ℚ := 2 ^ 128

/-- `faiss.IndexFlatL2.search` on a single query row: exact squared-L2
distances over all stored vectors, the `k` nearest first (ascending
distance, ties by lower ordinal), padded to exactly `k` entries with
(FLT_MAX, -1) when the index holds fewer than `k` vectors. -/
def faiss_search (vecs : List Vec) (q : Vec) (k : ℕ) : List (ℚ × ℤ) :=
  let scored := vecs.enum.map (fun p => (l2sq q p.2, (p.1 : ℤ)))
  (List.insertionSort distLE scored).take k
    ++ List.replicate (k - vecs.length) (FLT_MAX, -1)

/-- One entry of the list returned by `VectorStore.search`. -/
structure SearchResult where
  document : Doc
  metadata : Meta
  score : ℚ
  rank : ℕ
deriving DecidableEq

/-- The result-assembly loop of `VectorStore.search` (lines 129-141):
`for i, (distance, idx) in enumerate(...)`, keeping entries with
`0 <= idx < len(self.documents)`.  The `.error .indexError` branch is the
IndexError that `self.metadata[idx]` raises when the metadata array is
shorter than the documents array (never the case for states the store
itself constructs, where the arrays are parallel). -/
def buildResults (docs : List Doc) (meta : List Meta) :
    List (ℚ × ℤ) → ℕ → Except PyErr (List SearchResult)
  | [], _ => .ok []
  | (dist, idx) :: rest, i =>
    if 0 ≤ idx ∧ idx < (docs.length : ℤ) then
      match docs[idx.toNat]?, meta[idx.toNat]? with
      | some d, some m =>
        (match buildResults docs meta rest (i + 1) with
         | .error e => .error e
         | .ok rs => .ok (⟨d, m, dist, i + 1⟩ :: rs))
      | _, _ => .error .indexError
    else buildResults docs meta rest (i + 1)

/-- `VectorStore.search` (lines 103-143): if the index is None, try to
load it from disk and return `[]` if it is still None; return `[]` when
the documents array is empty; otherwise embed the query string, run the
FAISS search and assemble the results.  The returned state is the state
the search actually executed in (the source mutates `self` in place when
it loads). -/
def VectorStore.search (model : List String → Except Unit (List Vec))
    (rng : ℕ → ℕ → ℚ) (s : StoreState) (q : String) (k : ℕ) :
    Except PyErr (List SearchResult) × StoreState :=
  let s1 := if s.index.isNone then VectorStore.load_index s else s
  match s1.index with
  | none => (.ok [], s1)
  | some vecs =>
    if s1.documents.length = 0 then (.ok [], s1)
    else
      match create_embeddings model rng [q] with
      | .error e => (.error e, s1)
      | .ok qes =>
        (buildResults s1.documents s1.metadata (faiss_search vecs (qes.headD []) k) 0, s1)

/-- The list comprehension `[xs[i] for i in idxs]`: evaluates left to
right, `none` models the IndexError raised at the first out-of-range
index. -/
def selectAll {α : Type} (l : List α) : List ℕ → Option (List α)
  | [] => some []
  | i :: rest =>
    match l[i]? with
    | none => none
    | some a => (selectAll l rest).map (a :: ·)

/-- The `keep_indices` loop of `remove_document` (lines 212-215): the
positions of the chunks whose filename differs. -/
def keepIndices (docs : List Doc) (filename : String) : List ℕ :=
  ((docs.enum).filter (fun p => p.2.filename ≠ filename)).map (·.1)

/-- `VectorStore.remove_document` (lines 203-251): return false on an
empty store or when no chunk has the filename (no mutation); otherwise
keep exactly the chunks whose filename differs, re-embed the kept texts
and rebuild a fresh index over them (or set the index to None when
nothing is kept), install the kept arrays, save, and return true. -/
def VectorStore.remove_document (model : List String → Except Unit (List Vec))
    (rng : ℕ → ℕ → ℚ) (s : StoreState) (filename : String) :
    Except PyErr (Bool × StoreState) :=
  if s.documents.isEmpty then .ok (false, s)
  else
    let keep_indices := keepIndices s.documents filename
    if keep_indices.length = s.documents.length then .ok (false, s)
    else
      match selectAll s.documents keep_indices, selectAll s.metadata keep_indices with
      | some new_documents, some new_metadata =>
        (match
          (if new_documents.isEmpty then Except.ok none
           else
             match create_embeddings model rng (new_documents.map (·.text)) with
             | .error e => .error e
             | .ok embeddings => .ok (some embeddings)) with
         | .error e => .error e
         | .ok index' =>
           .ok (true, VectorStore.save_index
             { s with index := index', documents := new_documents, metadata := new_metadata }))
      | _, _ => .error .indexError

/-- `VectorStore.clear` (lines 253-267): reset the index and both arrays
and delete the three persisted artifacts (deleting an already-absent file
is a no-op, so the result does not depend on the starting state). -/
def VectorStore.clear (_s : StoreState) : StoreState :=
  ⟨none, [], [], ⟨none, none, none⟩⟩

/-- A source match (the dict with keys text and chunk_id built in
`RAGService.ask_question`, line 104-107). -/
structure Match where
  text : String
  chunk_id : ℕ
deriving DecidableEq

/-- A source group (the dict with keys filename and matches; the matches
key is named matchesList here because matches is a Lean keyword). -/
structure SourceGroup where
  filename : String
  matchesList : List Match
deriving DecidableEq

/-- One conversation turn stored in `conversation_store[session_id]`. -/
structure Turn where
  question : String
  answer : String
  sources : List SourceGroup
deriving DecidableEq

/-- The module-level `conversation_store` dict: `none` means the session
key is absent. -/
def ConvStore : Type := String → Option (List Turn)

/-- The dict returned by `RAGService.ask_question`. -/
structure Response where
  success : Bool
  answer : String
  sources : List SourceGroup
  relevant_chunks : ℕ
  error : Option String
deriving DecidableEq

/-- Python `s.lower()` on the ASCII questions the claims range over. -/
def pyLower (s : String) : List Char := s.data.map Char.toLower

/-- Python substring containment `needle in hay`. -/
def containsSub (hay : List Char) (needle : String) : Bool :=
  decide (needle.data <:+: hay)

/-- The fixed pronoun-indicator list `vague_indicators` (rag_service.py
line 68). -/
def vague_indicators : List String := ["those", "they", "them", "it", "this", "that"]

/-- `any(indicator in question.lower() for indicator in vague_indicators)`. -/
def hasVagueIndicator (q : String) : Bool :=
  vague_indicators.any (fun w => containsSub (pyLower q) w)

/-- The query-expansion block of `RAGService.ask_question` (lines 64-76):
if the question contains a vague indicator and the session key is present
and its history is non-empty, prepend the last stored question. -/
def expand_query (conv : ConvStore) (sid q : String) : String :=
  if hasVagueIndicator q && (conv sid).isSome then
    match ((conv sid).getD []).getLast? with
    | some t => t.question ++ " " ++ q
    | none => q
  else q

/-- Python slicing `s[:n]`. -/
def strTake (s : String) (n : ℕ) : String := String.mk (s.data.take n)

/-- The match dict built for one search result (lines 104-107):
`{"text": result["document"]["text"][:200] + "...", "chunk_id": ...}`. -/
def mkMatch (r : SearchResult) : Match :=
  ⟨strTake r.document.text 200 ++ "...", r.document.chunk_id⟩

/-- One step of filling `sources_by_file`: append the match to the entry
for the filename, creating the entry at the end when the key is new
(Python dicts preserve insertion order). -/
def insertMatch (acc : List (String × List Match)) (fn : String) (m : Match) :
    List (String × List Match) :=
  if acc.any (fun p => p.1 = fn) then
    acc.map (fun p => if p.1 = fn then (p.1, p.2 ++ [m]) else p)
  else acc ++ [(fn, [m])]

/-- The grouping loop over the search results (lines 94-107). -/
def sourcesByFile (acc : List (String × List Match)) :
    List SearchResult → List (String × List Match)
  | [] => acc
  | r :: rest => sourcesByFile (insertMatch acc r.document.filename (mkMatch r)) rest

/-- Lines 90-118 of `RAGService.ask_question`: group the results by
filename in first-seen order, then cap each group at its first 3
matches. -/
def groupSources (results : List SearchResult) : List SourceGroup :=
  (sourcesByFile [] results).map (fun p => ⟨p.1, p.2.take 3⟩)

/-- Python `sep.join(parts)`. -/
def joinSep (sep : String) : List String → String
  | [] => ""
  | [a] => a
  | a :: rest => a ++ sep ++ joinSep sep rest

/-- An apostrophe, kept out of string literals. -/
def apos : String := String.mk [Char.ofNat 39]

/-- The history block (lines 123-127): the last two stored turns,
oldest first, each rendered as a Previous Question / Previous Answer
pair with the answer truncated to 150 characters. -/
def historyText (conv : ConvStore) (sid : String) : String :=
  ((((conv sid).getD []).drop (((conv sid).getD []).length - 2)).map
    (fun msg => "Previous Question: " ++ msg.question ++ "\n" ++
      "Previous Answer: " ++ strTake msg.answer 150 ++ "...\n\n")).foldl (· ++ ·) ""

/-- The date facts resolved at call time in
`RAGService._generate_answer_with_llm`. -/
structure DateInfo where
  current_date : String
  current_day : String
  current_year : ℤ
deriving DecidableEq

/-- The prompt template of `_generate_answer_with_llm` (lines 173-201);
contractions of the source text are spelled out to keep apostrophes out
of the literals. -/
def buildPrompt (today : DateInfo) (question context history : String) : String :=
  "You are an HR Policy Assistant. Answer based STRICTLY on the context below.\n\n" ++
  "IMPORTANT DATE CONTEXT:\n" ++
  "- Today is " ++ today.current_date ++ " (" ++ today.current_day ++ ")\n" ++
  "- Current year is " ++ toString today.current_year ++ "\n\n" ++
  "CONVERSATION HISTORY:\n" ++ history ++ "\n\n" ++
  "CONTEXT FROM HR POLICIES:\n" ++ context ++ "\n\n" ++
  "CURRENT QUESTION: " ++ question ++ "\n\n" ++
  "INSTRUCTIONS:\n" ++
  "1. Use todays date (" ++ today.current_date ++ ") to answer date-sensitive questions like holidays\n" ++
  "2. For questions about office timings, look for shift duration, break and login hours\n" ++
  "3. For questions about specific policies, extract the exact details from the context\n" ++
  "4. If context explicitly states something is prohibited, mention that clearly\n" ++
  "5. If question refers to previous conversation, check the HISTORY\n" ++
  "6. Answer ONLY using information from context or history\n" ++
  "7. If context does not contain the answer, say so\n" ++
  "8. For holiday questions, check whether " ++ today.current_date ++ " matches any holiday dates in the context\n\n" ++
  "ANSWER:"

/-- `RAGService._generate_answer_with_llm` (lines 163-215): build the
prompt and call the Ollama collaborator; if the call raises, fall back to
a truncated raw-context excerpt. -/
def generate_answer_with_llm (llm : String → Except Unit String) (today : DateInfo)
    (question context history : String) : String :=
  match llm (buildPrompt today question context history) with
  | .ok response => response
  | .error _ =>
    "Based on the HR policies, here" ++ apos ++ "s what I found:\n\n" ++ strTake context 1000

/-- The memory update of `ask_question` (lines 132-144): create the
session entry when absent, append the turn, keep the last 5 turns. -/
def memoryUpdate (conv : ConvStore) (sid : String) (t : Turn) : ConvStore :=
  let appended := ((conv sid).getD []) ++ [t]
  let trimmed := if appended.length > 5 then appended.drop (appended.length - 5) else appended
  fun x => if x = sid then some trimmed else conv x

/-- The answer text of the empty-result outcome (line 84). -/
def noRelevantAnswer : String :=
  "I couldn" ++ apos ++ "t find relevant information in the documents."

/-- The message of a caught exception, as interpolated by `str(e)`. -/
def errStr : PyErr → String
  | .embeddingUnavailable => "embedding unavailable"
  | .indexError => "list index out of range"

/-- `RAGService.ask_question` (lines 61-161): expand the query from the
session history, search the vector store, and either return the
structured no-relevant-information result (leaving the conversation
store untouched), or assemble context and source groups, generate the
answer and append the turn to the bounded session memory.  An exception
escaping the body is caught by the outer try/except (lines 154-161). -/
def RAGService.ask_question (model : List String → Except Unit (List Vec))
    (rng : ℕ → ℕ → ℚ) (llm : String → Except Unit String) (today : DateInfo)
    (question : String) (k : ℕ) (sid : String)
    (vs : StoreState) (conv : ConvStore) : Response × StoreState × ConvStore :=
  let search_query := expand_query conv sid question
  match VectorStore.search model rng vs search_query k with
  | (.error e, vs') =>
    (⟨false, "An error occurred while processing your question: " ++ errStr e,
      [], 0, some (errStr e)⟩, vs', conv)
  | (.ok results, vs') =>
    if results.isEmpty then
      (⟨false, noRelevantAnswer, [], 0, some "No relevant documents found"⟩, vs', conv)
    else
      let sources := groupSources results
      let context := joinSep "\n\n" (results.map (fun r => r.document.text))
      let history_text := historyText conv sid
      let answer := generate_answer_with_llm llm today question context history_text
      let conv' := memoryUpdate conv sid ⟨question, answer, sources⟩
      (⟨true, answer, sources, results.length, none⟩, vs', conv')

/-- `RAGService.get_document_count` (lines 217-229): the number of
distinct non-empty filenames among the stored chunks (Python skips falsy
filenames via `if filename:`). -/
def RAGService.get_document_count (s : StoreState) : ℕ :=
  if s.documents.isEmpty then 0
  else (((s.documents.map (·.filename)).filter (fun f => f ≠ "")).dedup).length

/-! Concrete fixtures used by witnesses and counterexamples. -/

/-- An embedding model collaborator that succeeds, embedding each text
with `f`. -/
def okModel (f : String → Vec) : List String → Except Unit (List Vec) :=
  fun ts => .ok (ts.map f)

/-- An embedding model collaborator whose call always raises. -/
def failModel : List String → Except Unit (List Vec) := fun _ => .error ()

/-- A concrete ambient random source. -/
def rng0 : ℕ → ℕ → ℚ := fun _ _ => 0

/-- A concrete embedding function. -/
def f0 : String → Vec := fun _ => [0]

/-- An LLM collaborator that always completes with a fixed answer. -/
def llm0 : String → Except Unit String := fun _ => .ok "ans"

/-- Concrete call-time date facts. -/
def today0 : DateInfo := ⟨"January 1, 2026", "Thursday", 2026⟩

/-- The empty conversation store. -/
def conv0 : ConvStore := fun _ => none

/-- An artifact directory with no files. -/
def emptyDisk : Disk := ⟨none, none, none⟩

/-- A store that has never been populated. -/
def emptyStore : StoreState := ⟨none, [], [], emptyDisk⟩

/-- Two chunks of one two-chunk document. -/
def chunkA : Doc := ⟨"alpha text", "f.txt", "txt", "p", 0, 2⟩

/-- Second chunk of the same document. -/
def chunkB : Doc := ⟨"beta text", "f.txt", "txt", "p", 1, 2⟩

/-- A single chunk of a one-chunk document. -/
def chunkC : Doc := ⟨"gamma text", "g.txt", "txt", "p", 0, 1⟩

/-- Metadata record for `chunkC` at position 0. -/
def metaC : Meta := ⟨0, chunkC⟩

/-- C2 fixture: a persisted directory whose index artifact holds two
vectors while the documents artifact holds one chunk, all three reads
succeeding. -/
def misalignedDisk : Disk :=
  ⟨some (some [[0], [1]]), some (some [chunkC]), some (some [metaC])⟩

/-- A fresh store whose directory is `misalignedDisk`. -/
def misalignedStore : StoreState := ⟨none, [], [], misalignedDisk⟩

/-- A directory whose documents artifact exists but raises on read. -/
def failReadStore : StoreState :=
  ⟨some [[5]], [chunkC], [metaC], ⟨some (some [[0]]), some none, some (some [])⟩⟩

/-- A store holding the single one-chunk document `chunkC`, already
indexed. -/
def oneDocStore : StoreState := ⟨some [[0]], [chunkC], [metaC], emptyDisk⟩

/-- One step of asking a question in session s against the concrete
collaborators. -/
def askStep (st : StoreState × ConvStore) (q : String) : StoreState × ConvStore :=
  ((RAGService.ask_question (okModel f0) rng0 llm0 today0 q 10 "s" st.1 st.2).2.1,
   (RAGService.ask_question (okModel f0) rng0 llm0 today0 q 10 "s" st.1 st.2).2.2)

/-- The conversation store after asking seven questions q1..q7 in one
session. -/
def ask7 : ConvStore :=
  (["q1", "q2", "q3", "q4", "q5", "q6", "q7"].foldl askStep (oneDocStore, conv0)).2

/-- The turn each successfully answered question stores in the fixture. -/
def expTurn (q : String) : Turn := ⟨q, "ans", [⟨"g.txt", [⟨"gamma text...", 0⟩]⟩]⟩

/-- Chunks of three distinct one-chunk documents F, G, H. -/
def chunkF : Doc := ⟨"f text", "F.txt", "txt", "p", 0, 1⟩

/-- Chunk of document G. -/
def chunkG : Doc := ⟨"g text", "G.txt", "txt", "p", 0, 1⟩

/-- Chunk of document H. -/
def chunkH : Doc := ⟨"h text", "H.txt", "txt", "p", 0, 1⟩

/-- An aligned store holding the chunks of F, G and H. -/
def threeDocStore : StoreState :=
  ⟨some [[0], [0], [0]], [chunkF, chunkG, chunkH],
   [⟨0, chunkF⟩, ⟨1, chunkG⟩, ⟨2, chunkH⟩], emptyDisk⟩

/-- The first-seen-order sequence of distinct elements of a list, given
the set already seen (specification-side notion for the insertion order
of the Python dict keys). -/
def firstSeenAux : List String → List String → List String
  | _, [] => []
  | seen, a :: l => if a ∈ seen then firstSeenAux seen l else a :: firstSeenAux (a :: seen) l

/-- Dict lookup in the association-list model of `sources_by_file`
(empty list when the key is absent). -/
def lookupD (acc : List (String × List Match)) (fn : String) : List Match :=
  match acc.find? (fun p => p.1 = fn) with
  | some p => p.2
  | none => []

/-- The results used by the C9 witness: four chunks over two files, the
first file contributing four matches so that the 3-match cap bites. -/
def witnessResults : List SearchResult :=
  [⟨chunkA, ⟨0, chunkA⟩, 0, 1⟩, ⟨chunkC, ⟨1, chunkC⟩, 0, 2⟩,
   ⟨chunkB, ⟨2, chunkB⟩, 0, 3⟩, ⟨⟨"delta text", "f.txt", "txt", "p", 2, 4⟩, ⟨3, chunkA⟩, 0, 4⟩,
   ⟨⟨"epsilon text", "f.txt", "txt", "p", 3, 4⟩, ⟨4, chunkB⟩, 0, 5⟩]

/-- C1 (code bug): `add_documents` on an empty store with a batch of two
chunks gives BOTH metadata records doc_id = 1, because the source
computes `len(self.documents) - 1` after `self.documents.extend(...)`;
the spec invariant `metadata[i].doc_id == i` demands [0, 1]. -/
theorem add_documents_batch_shares_doc_id :
    (VectorStore.add_documents (okModel f0) rng0 emptyStore [chunkA, chunkB]).map
      (fun s => s.metadata.map (·.doc_id)) = .ok [1, 1] := by
  rfl

/-- C2 counterexample: loading a directory whose index artifact holds 2
vectors but whose documents artifact holds 1 chunk succeeds and KEEPS the
misaligned state — `load_index` performs no `index.ntotal == len(documents)`
validation and does not reset to empty. -/
theorem load_index_keeps_misaligned_state :
    VectorStore.ntotal (VectorStore.load_index misalignedStore) = 2 ∧
    (VectorStore.load_index misalignedStore).documents.length = 1 ∧
    (VectorStore.load_index misalignedStore).index ≠ none ∧
    (VectorStore.load_index misalignedStore).documents ≠ [] := by
  refine ⟨rfl, rfl, ?_, ?_⟩ <;> decide

/-- C2 amended: after reading the three artifacts, `load_index` installs
whatever was read — even if the index vector count and the documents
length disagree; it resets all three in-memory structures to empty
exactly when the index and documents files both exist but reading any of
the three artifacts fails (the metadata file being absent also counts as
a failed read); when either of the first two files is absent it leaves
the state untouched. -/
theorem load_index_reset_iff_read_failure :
    ∀ s : StoreState,
      (∀ ixr dsr, s.disk.indexFile = some ixr → s.disk.docsFile = some dsr →
        ((ixr = none ∨ dsr = none ∨ s.disk.metaFile = none ∨ s.disk.metaFile = some none) →
          VectorStore.load_index s = { s with index := none, documents := [], metadata := [] }) ∧
        (∀ ix ds ms, ixr = some ix → dsr = some ds → s.disk.metaFile = some (some ms) →
          VectorStore.load_index s = { s with index := some ix, documents := ds, metadata := ms })) ∧
      ((s.disk.indexFile = none ∨ s.disk.docsFile = none) → VectorStore.load_index s = s) := by
  intro s
  obtain ⟨ix0, docs0, meta0, ⟨ixf, dsf, mtf⟩⟩ := s
  refine ⟨?_, ?_⟩
  · rintro ixr dsr hix hds
    subst hix
    subst hds
    constructor
    · rintro (rfl | rfl | hm | hm)
      · rcases dsr with _ | ds <;> rcases mtf with _ | (_ | ms) <;> rfl
      · rcases ixr with _ | ix <;> rcases mtf with _ | (_ | ms) <;> rfl
      · subst hm
        rcases ixr with _ | ix <;> rcases dsr with _ | ds <;> rfl
      · subst hm
        rcases ixr with _ | ix <;> rcases dsr with _ | ds <;> rfl
    · rintro ix ds ms rfl rfl hm
      subst hm
      rfl
  · rintro (h | h)
    · subst h
      rcases dsf with _ | d <;> rfl
    · subst h
      rcases ixf with _ | i <;> rfl

/-- C2 witness: a directory whose documents artifact raises on read is
reset to the empty in-memory state. -/
theorem load_index_reset_iff_read_failure_witness :
    VectorStore.load_index failReadStore =
      { failReadStore with index := none, documents := [], metadata := [] } :=
  ((load_index_reset_iff_read_failure failReadStore).1 (some [[0]]) none rfl rfl).1
    (Or.inr (Or.inl rfl))

/-- C3 counterexample: when the model call fails, `create_embeddings`
does NOT fail the call with an EmbeddingUnavailable error — it silently
returns the random fallback vectors although no fallback policy is
configured anywhere in the repository (the Settings class has no such
field), so the fallback is enabled by default. -/
theorem create_embeddings_fallback_cex :
    create_embeddings failModel rng0 ["x"] = .ok (randVecs rng0 1) ∧
    ∀ e, create_embeddings failModel rng0 ["x"] ≠ .error e := by
  exact ⟨rfl, fun e h => Except.noConfusion h⟩

/-- C3 amended: whenever the underlying model call fails on a non-empty
batch, `create_embeddings` unconditionally returns the pseudo-random
fallback matrix — one vector of dimension 384 per input text, drawn from
the ambient random state — and never raises EmbeddingUnavailable; there
is no configuration switch guarding this fallback. -/
theorem create_embeddings_fallback_unconditional :
    ∀ (model : List String → Except Unit (List Vec)) (rng : ℕ → ℕ → ℚ)
      (texts : List String),
      model texts = .error () → texts ≠ [] →
      create_embeddings model rng texts = .ok (randVecs rng texts.length) ∧
      (randVecs rng texts.length).length = texts.length ∧
      (∀ v ∈ randVecs rng texts.length, v.length = 384) := by
  intro model rng texts hm hne
  refine ⟨?_, ?_, ?_⟩
  · cases texts with
    | nil => exact absurd rfl hne
    | cons a t => simp [create_embeddings, hm]
  · simp [randVecs]
  · intro v hv
    simp only [randVecs, List.mem_map] at hv
    obtain ⟨i, _, rfl⟩ := hv
    simp [randVec]

/-- C3 witness: the amended behaviour at the concrete failing call. -/
theorem create_embeddings_fallback_unconditional_witness :
    create_embeddings failModel rng0 ["x"] = .ok (randVecs rng0 1) ∧
    (randVecs rng0 1).length = 1 ∧
    (∀ v ∈ randVecs rng0 1, v.length = 384) :=
  create_embeddings_fallback_unconditional failModel rng0 ["x"] rfl (by decide)

/-- C7: `clear` empties the index, both parallel arrays and the three
persisted artifacts; it is idempotent (a second `clear` is a no-op), and
afterwards the document count is 0. -/
theorem clear_idempotent_and_empty :
    ∀ s : StoreState,
      VectorStore.clear (VectorStore.clear s) = VectorStore.clear s ∧
      (VectorStore.clear s).index = none ∧
      (VectorStore.clear s).documents = [] ∧
      (VectorStore.clear s).metadata = [] ∧
      (VectorStore.clear s).disk = ⟨none, none, none⟩ ∧
      RAGService.get_document_count (VectorStore.clear s) = 0 := by
  intro s
  exact ⟨rfl, rfl, rfl, rfl, rfl, rfl⟩

/-- C4: the search query sent for retrieval (the first argument
`ask_question` passes to `VectorStore.search`, namely
`expand_query conv sid q`) equals `last_question ++ " " ++ q` exactly
when the question case-insensitively contains one of the pronoun
indicators those/they/them/it/this/that AND the session has at least one
prior turn; in every other case it equals the question verbatim. -/
theorem expand_query_pronoun_rule :
    ∀ (conv : ConvStore) (sid q : String),
      expand_query conv sid q =
        if hasVagueIndicator q = true ∧ ((conv sid).getD []) ≠ [] then
          ((((conv sid).getD []).getLast?).map (·.question)).getD "" ++ " " ++ q
        else q := by
  intro conv sid q
  unfold expand_query
  cases hq : hasVagueIndicator q
  · simp [hq]
  · cases hcv : conv sid with
    | none => simp [hcv]
    | some ts =>
      cases hts : ts.getLast? with
      | none =>
        have hnil : ts = [] := by
          cases ts with
          | nil => rfl
          | cons a t => simp [List.getLast?_concat] at hts
        subst hnil
        simp [hcv]
      | some t =>
        have hne : ts ≠ [] := by
          intro h
          subst h
          simp at hts
        simp [hcv, hts, hne]

/-- C10: when the search yields no results, `ask_question` returns the
structured no-relevant-information response and leaves the conversation
store untouched — no turn is appended — so any later pronoun-based query
expansion sees exactly the history it would have seen before the failed
question. -/
theorem empty_result_leaves_memory_unchanged :
    ∀ (model : List String → Except Unit (List Vec)) (rng : ℕ → ℕ → ℚ)
      (llm : String → Except Unit String) (today : DateInfo)
      (q : String) (k : ℕ) (sid : String) (vs : StoreState) (conv : ConvStore),
      (VectorStore.search model rng vs (expand_query conv sid q) k).1 = .ok [] →
      (RAGService.ask_question model rng llm today q k sid vs conv).2.2 = conv ∧
      (RAGService.ask_question model rng llm today q k sid vs conv).1 =
        ⟨false, noRelevantAnswer, [], 0, some "No relevant documents found"⟩ ∧
      (∀ sid2 q2,
        expand_query ((RAGService.ask_question model rng llm today q k sid vs conv).2.2) sid2 q2
          = expand_query conv sid2 q2) := by
  intro model rng llm today q k sid vs conv h
  unfold RAGService.ask_question
  rcases hs : VectorStore.search model rng vs (expand_query conv sid q) k with ⟨res, vs'⟩
  rw [hs] at h
  simp only at h
  subst h
  simp [hs]

/-- C10 witness: asking on a never-populated store returns the
no-relevant-information outcome and leaves the empty conversation store
unchanged. -/
theorem empty_result_leaves_memory_unchanged_witness :
    (RAGService.ask_question (okModel f0) rng0 llm0 today0 "hello" 5 "s" emptyStore conv0).2.2
      = conv0 ∧
    (RAGService.ask_question (okModel f0) rng0 llm0 today0 "hello" 5 "s" emptyStore conv0).1 =
      ⟨false, noRelevantAnswer, [], 0, some "No relevant documents found"⟩ ∧
    (∀ sid2 q2,
      expand_query
        ((RAGService.ask_question (okModel f0) rng0 llm0 today0 "hello" 5 "s" emptyStore conv0).2.2)
        sid2 q2 = expand_query conv0 sid2 q2) :=
  empty_result_leaves_memory_unchanged (okModel f0) rng0 llm0 today0 "hello" 5 "s"
    emptyStore conv0 rfl

/-- The per-session turn list produced by `memoryUpdate` never exceeds 5
turns, and untouched sessions keep their lists. -/
theorem memoryUpdate_bound (conv : ConvStore) (sid : String) (t : Turn)
    (h : ∀ x, ((conv x).getD []).length ≤ 5) :
    ∀ x, ((memoryUpdate conv sid t x).getD []).length ≤ 5 := by
  intro x
  simp only [memoryUpdate]
  by_cases hx : x = sid
  · rw [if_pos hx]
    simp only [Option.getD_some]
    split
    · rw [List.length_drop]
      omega
    · rename_i hl
      omega
  · rw [if_neg hx]
    exact h x

/-- C8: every session list holds at most 5 turns after any ask operation
(provided it did before, which holds inductively from the empty store);
and concretely, after 7 answered questions in one session exactly the 5
most recent turns remain, oldest first. -/
theorem conversation_memory_bound :
    (∀ (model : List String → Except Unit (List Vec)) (rng : ℕ → ℕ → ℚ)
       (llm : String → Except Unit String) (today : DateInfo)
       (q : String) (k : ℕ) (sid : String) (vs : StoreState) (conv : ConvStore),
      (∀ x, ((conv x).getD []).length ≤ 5) →
      ∀ x, (((RAGService.ask_question model rng llm today q k sid vs conv).2.2 x).getD []).length ≤ 5) ∧
    ask7 "s" = some [expTurn "q3", expTurn "q4", expTurn "q5", expTurn "q6", expTurn "q7"] := by
  constructor
  · intro model rng llm today q k sid vs conv hconv x
    simp only [RAGService.ask_question]
    rcases hs : VectorStore.search model rng vs (expand_query conv sid q) k with ⟨res, vs'⟩
    cases res with
    | error e =>
      exact hconv x
    | ok results =>
      dsimp only
      by_cases hres : results.isEmpty = true
      · rw [if_pos hres]
        exact hconv x
      · rw [if_neg hres]
        exact memoryUpdate_bound conv sid _ hconv x
  · decide

/-- C8 witness: the bound applied to the first concrete ask of the
scenario, starting from the empty conversation store. -/
theorem conversation_memory_bound_witness :
    ∀ x, (((RAGService.ask_question (okModel f0) rng0 llm0 today0 "q1" 10 "s"
      oneDocStore conv0).2.2 x).getD []).length ≤ 5 :=
  conversation_memory_bound.1 (okModel f0) rng0 llm0 today0 "q1" 10 "s" oneDocStore conv0
    (fun x => by simp [conv0])

/-- Selecting the filtered positions of `enumFrom` out of a list `big`
that agrees with `l` from offset `off` yields exactly `l.filter pb`. -/
theorem selectAll_enumFrom_filter {α : Type} (pb : α → Bool) :
    ∀ (l : List α) (off : ℕ) (big : List α),
      (∀ j, j < l.length → big[off + j]? = l[j]?) →
      selectAll big (((List.enumFrom off l).filter (fun q => pb q.2)).map (·.1)) =
        some (l.filter pb) := by
  intro l
  induction l with
  | nil =>
    intro off big _
    simp [selectAll]
  | cons a t ih =>
    intro off big hagree
    have ha : big[off]? = some a := by
      have := hagree 0 (by simp)
      simpa using this
    have hshift : ∀ j, j < t.length → big[(off + 1) + j]? = t[j]? := by
      intro j hj
      have := hagree (j + 1) (by simpa using Nat.succ_lt_succ hj)
      calc big[(off + 1) + j]? = big[off + (j + 1)]? := by ring_nf
        _ = (a :: t)[j + 1]? := this
        _ = t[j]? := by simp
    rw [List.enumFrom_cons]
    by_cases hpa : pb a = true
    · rw [List.filter_cons_of_pos (by simpa using hpa)]
      simp only [List.map_cons]
      show selectAll big (off :: _) = _
      unfold selectAll
      rw [ha, ih (off + 1) big hshift, List.filter_cons_of_pos hpa]
      rfl
    · rw [List.filter_cons_of_neg (by simpa using hpa)]
      rw [ih (off + 1) big hshift, List.filter_cons_of_neg (by simpa using hpa)]

/-- The filtered `enumFrom` positions are as many as the filtered
elements. -/
theorem length_enumFrom_filter {α : Type} (pb : α → Bool) :
    ∀ (l : List α) (off : ℕ),
      (((List.enumFrom off l).filter (fun q => pb q.2)).map (·.1)).length =
        (l.filter pb).length := by
  intro l
  induction l with
  | nil => intro off; simp
  | cons a t ih =>
    intro off
    rw [List.enumFrom_cons]
    by_cases hpa : pb a = true
    · rw [List.filter_cons_of_pos (by simpa using hpa), List.filter_cons_of_pos hpa]
      simpa using ih (off + 1)
    · rw [List.filter_cons_of_neg (by simpa using hpa), List.filter_cons_of_neg (by simpa using hpa)]
      exact ih (off + 1)

/-- Every kept index is a valid position of the documents array. -/
theorem keepIndices_lt (docs : List Doc) (fname : String) :
    ∀ i ∈ keepIndices docs fname, i < docs.length := by
  intro i hi
  unfold keepIndices at hi
  rw [List.mem_map] at hi
  obtain ⟨⟨j, d⟩, hmem, rfl⟩ := hi
  have hmem2 := List.mem_filter.mp hmem
  have := List.mem_enumFrom (by simpa [List.enum] using hmem2.1)
  simpa using this.2.1

/-- `selectAll` over the kept positions of the documents array itself is
exactly the filename filter. -/
theorem selectAll_keepIndices (docs : List Doc) (fname : String) :
    selectAll docs (keepIndices docs fname) =
      some (docs.filter (fun d => d.filename ≠ fname)) := by
  have h := selectAll_enumFrom_filter (fun d : Doc => decide (d.filename ≠ fname)) docs 0 docs
    (by intro j hj; simp)
  simpa [keepIndices, List.enum_eq_enumFrom] using h

/-- As many kept positions as kept chunks. -/
theorem keepIndices_length (docs : List Doc) (fname : String) :
    (keepIndices docs fname).length = (docs.filter (fun d => d.filename ≠ fname)).length := by
  have h := length_enumFrom_filter (fun d : Doc => decide (d.filename ≠ fname)) docs 0
  simpa [keepIndices, List.enum_eq_enumFrom] using h

/-- `selectAll` succeeds on any index list that stays in range, with one
output per index. -/
theorem selectAll_of_lt {α : Type} (l : List α) :
    ∀ idxs : List ℕ, (∀ i ∈ idxs, i < l.length) →
      ∃ out, selectAll l idxs = some out ∧ out.length = idxs.length := by
  intro idxs
  induction idxs with
  | nil => intro _; exact ⟨[], rfl, rfl⟩
  | cons i rest ih =>
    intro h
    obtain ⟨out, hout, hlen⟩ := ih (fun j hj => h j (List.mem_cons_of_mem i hj))
    have hi : i < l.length := h i (List.mem_cons_self i rest)
    have ha := List.getElem?_eq_getElem hi
    refine ⟨l[i] :: out, ?_, by simp [hlen]⟩
    unfold selectAll
    rw [ha, hout]
    rfl

/-- C5: removing a filename that is present returns true and leaves
exactly the chunks of the other filenames, in their original relative
order, with the index rebuilt over exactly the kept chunks (in the same
order, re-embedded); a second `remove_document` of the same filename
returns false and leaves the state untouched. -/
theorem remove_document_removes_exactly_filename :
    ∀ (f : String → Vec) (rng : ℕ → ℕ → ℚ) (s : StoreState) (fname : String),
      s.metadata.length = s.documents.length →
      (∃ d ∈ s.documents, d.filename = fname) →
      (∃ d ∈ s.documents, d.filename ≠ fname) →
      ∃ s₁, VectorStore.remove_document (okModel f) rng s fname = .ok (true, s₁) ∧
        s₁.documents = s.documents.filter (fun d => d.filename ≠ fname) ∧
        s₁.index = some ((s.documents.filter (fun d => d.filename ≠ fname)).map (fun d => f d.text)) ∧
        s₁.metadata.length = s₁.documents.length ∧
        VectorStore.remove_document (okModel f) rng s₁ fname = .ok (false, s₁) := by
  intro f rng s fname hmeta hF hG
  obtain ⟨dF, hdF, hdFeq⟩ := hF
  obtain ⟨dG, hdG, hdGne⟩ := hG
  have hdGfil : dG ∈ s.documents.filter (fun d => d.filename ≠ fname) :=
    List.mem_filter.mpr ⟨hdG, by simpa using hdGne⟩
  have hEmpty : s.documents.isEmpty = false := by
    cases h : s.documents with
    | nil => exact absurd (h ▸ hdF) (List.not_mem_nil dF)
    | cons a t => rfl
  have hfilEmpty : (s.documents.filter (fun d => d.filename ≠ fname)).isEmpty = false := by
    cases h : s.documents.filter (fun d => d.filename ≠ fname) with
    | nil => exact absurd (h ▸ hdGfil) (List.not_mem_nil dG)
    | cons a t => rfl
  have hmapEmpty :
      ((s.documents.filter (fun d => d.filename ≠ fname)).map (fun d => d.text)).isEmpty = false := by
    cases h : s.documents.filter (fun d => d.filename ≠ fname) with
    | nil => exact absurd (h ▸ hdGfil) (List.not_mem_nil dG)
    | cons a t => rfl
  have hneq : ¬ (keepIndices s.documents fname).length = s.documents.length := by
    rw [keepIndices_length]
    intro heq
    have hself := List.Sublist.eq_of_length (List.filter_sublist _) heq
    have := List.filter_eq_self.mp hself dF hdF
    simp [hdFeq] at this
  obtain ⟨ms', hms', hmslen⟩ :=
    selectAll_of_lt s.metadata (keepIndices s.documents fname)
      (fun i hi => hmeta ▸ keepIndices_lt s.documents fname i hi)
  have hce : create_embeddings (okModel f) rng
      ((s.documents.filter (fun d => d.filename ≠ fname)).map (fun d => d.text)) =
      .ok (((s.documents.filter (fun d => d.filename ≠ fname)).map (fun d => d.text)).map f) := by
    simp [create_embeddings, okModel, hmapEmpty]
  refine ⟨⟨some ((s.documents.filter (fun d => d.filename ≠ fname)).map (fun d => f d.text)),
    s.documents.filter (fun d => d.filename ≠ fname), ms',
    ⟨some (some ((s.documents.filter (fun d => d.filename ≠ fname)).map (fun d => f d.text))),
     some (some (s.documents.filter (fun d => d.filename ≠ fname))), some (some ms')⟩⟩,
    ?_, rfl, rfl, ?_, ?_⟩
  · simp only [VectorStore.remove_document, hEmpty, Bool.false_eq_true, if_false,
      hneq, if_false, selectAll_keepIndices, hms', hfilEmpty, hce,
      VectorStore.save_index, List.map_map]
    rfl
  · show ms'.length = (s.documents.filter (fun d => d.filename ≠ fname)).length
    rw [hmslen, keepIndices_length]
  · have hkeep2 : (keepIndices (s.documents.filter (fun d => d.filename ≠ fname)) fname).length
        = (s.documents.filter (fun d => d.filename ≠ fname)).length := by
      rw [keepIndices_length]
      congr 1
      exact List.filter_eq_self.mpr (fun d hd => (List.mem_filter.mp hd).2)
    simp only [VectorStore.remove_document, hfilEmpty, Bool.false_eq_true, if_false,
      hkeep2, if_true]

/-- C5 witness: removing F from the {F, G, H} store. -/
theorem remove_document_removes_exactly_filename_witness :
    ∃ s₁, VectorStore.remove_document (okModel f0) rng0 threeDocStore "F.txt" = .ok (true, s₁) ∧
      s₁.documents = threeDocStore.documents.filter (fun d => d.filename ≠ "F.txt") ∧
      s₁.index = some ((threeDocStore.documents.filter (fun d => d.filename ≠ "F.txt")).map
        (fun d => f0 d.text)) ∧
      s₁.metadata.length = s₁.documents.length ∧
      VectorStore.remove_document (okModel f0) rng0 s₁ "F.txt" = .ok (false, s₁) :=
  remove_document_removes_exactly_filename f0 rng0 threeDocStore "F.txt" (by decide)
    ⟨chunkF, by decide, by decide⟩ ⟨chunkG, by decide, by decide⟩

/-- `create_embeddings` never propagates an exception: the except branch
returns fallback vectors instead of re-raising. -/
theorem create_embeddings_ok (model : List String → Except Unit (List Vec))
    (rng : ℕ → ℕ → ℚ) (ts : List String) :
    ∃ vs, create_embeddings model rng ts = .ok vs := by
  unfold create_embeddings
  by_cases h : ts.isEmpty = true
  · rw [if_pos h]
    exact ⟨[], rfl⟩
  · rw [if_neg h]
    cases hm : model ts with
    | ok e => exact ⟨e, rfl⟩
    | error e => exact ⟨randVecs rng ts.length, rfl⟩

/-- The FAISS padding entries (index -1) contribute no results. -/
theorem buildResults_replicate (docs : List Doc) (meta : List Meta) :
    ∀ (n : ℕ) (c : ℚ) (i : ℕ),
      buildResults docs meta (List.replicate n (c, -1)) i = .ok [] := by
  intro n
  induction n with
  | zero => intro c i; rfl
  | succ m ih =>
    intro c i
    rw [List.replicate_succ]
    simp only [buildResults]
    rw [if_neg (by omega)]
    exact ih c (i + 1)

/-- Appending the padding entries to the raw FAISS rows does not change
the assembled results. -/
theorem buildResults_pad (docs : List Doc) (meta : List Meta) :
    ∀ (l : List (ℚ × ℤ)) (n : ℕ) (c : ℚ) (i : ℕ),
      buildResults docs meta (l ++ List.replicate n (c, -1)) i =
        buildResults docs meta l i := by
  intro l
  induction l with
  | nil =>
    intro n c i
    rw [List.nil_append]
    exact buildResults_replicate docs meta n c i
  | cons hd t ih =>
    intro n c i
    obtain ⟨dist, idx⟩ := hd
    rw [List.cons_append]
    simp only [buildResults]
    by_cases hg : 0 ≤ idx ∧ idx < (docs.length : ℤ)
    · rw [if_pos hg, if_pos hg]
      cases hdoc : docs[idx.toNat]? with
      | none => rfl
      | some d =>
        cases hmet : meta[idx.toNat]? with
        | none => rfl
        | some m => rw [ih n c (i + 1)]
    · rw [if_neg hg, if_neg hg]
      exact ih n c (i + 1)

/-- When the metadata array is as long as the documents array, the
result-assembly loop never raises, returns at most one result per raw
row, and its scores form a sublist of the raw distances. -/
theorem buildResults_ok (docs : List Doc) (meta : List Meta)
    (hmeta : meta.length = docs.length) :
    ∀ (raw : List (ℚ × ℤ)) (i : ℕ),
      ∃ rs, buildResults docs meta raw i = .ok rs ∧ rs.length ≤ raw.length ∧
        (rs.map (·.score)).Sublist (raw.map (·.1)) := by
  intro raw
  induction raw with
  | nil => intro i; exact ⟨[], rfl, le_refl 0, List.Sublist.refl []⟩
  | cons hd rest ih =>
    intro i
    obtain ⟨dist, idx⟩ := hd
    obtain ⟨rs, hrs, hlen, hsub⟩ := ih (i + 1)
    simp only [buildResults]
    by_cases hg : 0 ≤ idx ∧ idx < (docs.length : ℤ)
    · rw [if_pos hg]
      have hlt : idx.toNat < docs.length := by omega
      have hltm : idx.toNat < meta.length := by omega
      rw [List.getElem?_eq_getElem hlt, List.getElem?_eq_getElem hltm, hrs]
      refine ⟨⟨docs[idx.toNat], meta[idx.toNat], dist, i + 1⟩ :: rs, rfl, by simpa using hlen, ?_⟩
      simpa using List.Sublist.cons₂ dist hsub
    · rw [if_neg hg]
      exact ⟨rs, hrs, Nat.le_succ_of_le hlen, hsub.trans (List.sublist_cons_self _ _)⟩

/-- C6: `search` executed in the (possibly freshly loaded) state returns
without error at most `min k ntotal` results, ordered by non-decreasing
L2 distance, and on an empty index it returns the empty list rather than
raising. -/
theorem search_bound_sorted_empty_safe :
    ∀ (model : List String → Except Unit (List Vec)) (rng : ℕ → ℕ → ℚ)
      (s : StoreState) (q : String) (k : ℕ),
      ((if s.index.isNone then VectorStore.load_index s else s).metadata.length =
        (if s.index.isNone then VectorStore.load_index s else s).documents.length) →
      ∃ results,
        VectorStore.search model rng s q k =
          (.ok results, if s.index.isNone then VectorStore.load_index s else s) ∧
        results.length ≤
          min k (VectorStore.ntotal (if s.index.isNone then VectorStore.load_index s else s)) ∧
        results.Pairwise (fun a b => a.score ≤ b.score) ∧
        (VectorStore.ntotal (if s.index.isNone then VectorStore.load_index s else s) = 0 →
          results = []) := by
  intro model rng s q k hmeta
  simp only [VectorStore.search]
  set s' := if s.index.isNone then VectorStore.load_index s else s with hs'
  cases hix : s'.index with
  | none =>
    dsimp only
    refine ⟨[], rfl, Nat.zero_le _, List.Pairwise.nil, fun _ => rfl⟩
  | some vecs =>
    dsimp only
    have hnt : VectorStore.ntotal s' = vecs.length := by
      unfold VectorStore.ntotal
      rw [hix]
      rfl
    by_cases hdocs : s'.documents.length = 0
    · rw [if_pos hdocs]
      exact ⟨[], rfl, Nat.zero_le _, List.Pairwise.nil, fun _ => rfl⟩
    · rw [if_neg hdocs]
      obtain ⟨qes, hqes⟩ := create_embeddings_ok model rng [q]
      rw [hqes]
      dsimp only
      have hraw : faiss_search vecs (qes.headD []) k =
          (List.insertionSort distLE
            ((vecs.enum).map (fun p => (l2sq (qes.headD []) p.2, (p.1 : ℤ))))).take k ++
            List.replicate (k - vecs.length) (FLT_MAX, -1) := rfl
      rw [hraw, buildResults_pad]
      obtain ⟨rs, hrs, hlen, hsub⟩ :=
        buildResults_ok s'.documents s'.metadata hmeta
          ((List.insertionSort distLE
            ((vecs.enum).map (fun p => (l2sq (qes.headD []) p.2, (p.1 : ℤ))))).take k) 0
      rw [hrs]
      have hslen : (List.insertionSort distLE
          ((vecs.enum).map (fun p => (l2sq (qes.headD []) p.2, (p.1 : ℤ))))).length =
          vecs.length := by
        rw [List.length_insertionSort, List.length_map, List.enum_length]
      have hbound : rs.length ≤ min k (VectorStore.ntotal s') := by
        rw [hnt]
        calc rs.length ≤ _ := hlen
          _ = min k vecs.length := by rw [List.length_take, hslen]
      refine ⟨rs, rfl, hbound, ?_, ?_⟩
      · have hpw := List.Pairwise.sublist (List.take_sublist k _)
          (List.sorted_insertionSort distLE
            ((vecs.enum).map (fun p => (l2sq (qes.headD []) p.2, (p.1 : ℤ)))))
        have hq : (((List.insertionSort distLE
            ((vecs.enum).map (fun p => (l2sq (qes.headD []) p.2, (p.1 : ℤ))))).take k).map
              (·.1)).Pairwise (fun a b : ℚ => a ≤ b) :=
          List.pairwise_map.mpr (hpw.imp (fun hab => hab.elim le_of_lt (fun h => le_of_eq h.1)))
        exact List.pairwise_map.mp (List.Pairwise.sublist hsub hq)
      · intro h0
        rw [h0] at hbound
        simp only [Nat.min_zero, Nat.le_zero] at hbound
        exact List.eq_nil_of_length_eq_zero hbound

/-- C6 witness: the search contract at a concrete aligned store. -/
theorem search_bound_sorted_empty_safe_witness :
    ∃ results,
      VectorStore.search (okModel f0) rng0 threeDocStore "hello" 2 =
        (.ok results,
          if threeDocStore.index.isNone then VectorStore.load_index threeDocStore
          else threeDocStore) ∧
      results.length ≤ min 2 (VectorStore.ntotal
        (if threeDocStore.index.isNone then VectorStore.load_index threeDocStore
         else threeDocStore)) ∧
      results.Pairwise (fun a b => a.score ≤ b.score) ∧
      (VectorStore.ntotal
        (if threeDocStore.index.isNone then VectorStore.load_index threeDocStore
         else threeDocStore) = 0 → results = []) :=
  search_bound_sorted_empty_safe (okModel f0) rng0 threeDocStore "hello" 2 (by decide)

/-- The Boolean key-presence test of `insertMatch` agrees with key
membership. -/
theorem anyKey_iff (acc : List (String × List Match)) (fn : String) :
    (acc.any (fun p => p.1 = fn) = true) ↔ fn ∈ acc.map (·.1) := by
  simp [List.any_eq_true, List.mem_map]

/-- `insertMatch` keeps the key sequence, appending the new key at the
end when absent. -/
theorem keys_insertMatch (acc : List (String × List Match)) (fn : String) (m : Match) :
    (insertMatch acc fn m).map (·.1) =
      if fn ∈ acc.map (·.1) then acc.map (·.1) else acc.map (·.1) ++ [fn] := by
  unfold insertMatch
  by_cases h : fn ∈ acc.map (·.1)
  · rw [if_pos ((anyKey_iff acc fn).mpr h), if_pos h, List.map_map]
    refine List.map_congr_left ?_
    intro p _
    by_cases hp : p.1 = fn <;> simp [hp]
  · rw [if_neg (fun hc => h ((anyKey_iff acc fn).mp hc)), if_neg h, List.map_append]
    rfl

/-- `firstSeenAux` only depends on the membership of the seen set. -/
theorem firstSeenAux_congr :
    ∀ (l s1 s2 : List String), (∀ x, x ∈ s1 ↔ x ∈ s2) →
      firstSeenAux s1 l = firstSeenAux s2 l := by
  intro l
  induction l with
  | nil => intro s1 s2 _; rfl
  | cons a t ih =>
    intro s1 s2 h
    simp only [firstSeenAux]
    by_cases ha : a ∈ s1
    · rw [if_pos ha, if_pos ((h a).mp ha)]
      exact ih s1 s2 h
    · rw [if_neg ha, if_neg (fun hc => ha ((h a).mpr hc))]
      refine congrArg (a :: ·) (ih (a :: s1) (a :: s2) ?_)
      intro x
      simp [h x]

/-- The key sequence of the grouping fold: the keys already present
followed by the unseen filenames in first-seen order. -/
theorem keys_sourcesByFile :
    ∀ (res : List SearchResult) (acc : List (String × List Match)),
      (sourcesByFile acc res).map (·.1) =
        acc.map (·.1) ++
          firstSeenAux (acc.map (·.1)) (res.map (fun r => r.document.filename)) := by
  intro res
  induction res with
  | nil =>
    intro acc
    simp [sourcesByFile, firstSeenAux]
  | cons r rest ih =>
    intro acc
    show (sourcesByFile (insertMatch acc r.document.filename (mkMatch r)) rest).map (·.1) = _
    rw [ih, keys_insertMatch]
    by_cases h : r.document.filename ∈ acc.map (·.1)
    · rw [if_pos h]
      simp only [List.map_cons, firstSeenAux]
      rw [if_pos h]
    · rw [if_neg h]
      simp only [List.map_cons, firstSeenAux]
      rw [if_neg h]
      rw [firstSeenAux_congr (rest.map (fun r => r.document.filename))
        (acc.map (·.1) ++ [r.document.filename]) (r.document.filename :: acc.map (·.1))
        (by intro x; simp [or_comm])]
      simp

/-- Appending a match to its own key appends it at the end of that key's
match list. -/
theorem lookupD_insertMatch_same (acc : List (String × List Match)) (fn : String) (m : Match) :
    lookupD (insertMatch acc fn m) fn = lookupD acc fn ++ [m] := by
  unfold insertMatch lookupD
  by_cases h : acc.any (fun p => p.1 = fn) = true
  · rw [if_pos h, List.find?_map]
    have hpg : ((fun p : String × List Match => decide (p.1 = fn)) ∘
        (fun p : String × List Match => if p.1 = fn then (p.1, p.2 ++ [m]) else p)) =
        (fun p : String × List Match => decide (p.1 = fn)) := by
      funext p
      by_cases hp : p.1 = fn <;> simp [hp]
    rw [hpg]
    cases hf : acc.find? (fun p => p.1 = fn) with
    | none =>
      obtain ⟨p, hp, hpf⟩ := List.any_eq_true.mp h
      exact absurd hpf (List.find?_eq_none.mp hf p hp)
    | some p =>
      have hps := List.find?_some hf
      have hpfn : p.1 = fn := by simpa using hps
      simp [hpfn]
  · rw [if_neg h, List.find?_append]
    have hnone : acc.find? (fun p => p.1 = fn) = none := by
      rw [List.find?_eq_none]
      intro x hx hpx
      exact h (List.any_eq_true.mpr ⟨x, hx, hpx⟩)
    rw [hnone]
    simp [List.find?]

/-- Appending a match to another key leaves this key's match list
unchanged. -/
theorem lookupD_insertMatch_other (acc : List (String × List Match)) (fn fn2 : String)
    (m : Match) (hne : fn2 ≠ fn) :
    lookupD (insertMatch acc fn m) fn2 = lookupD acc fn2 := by
  unfold insertMatch lookupD
  by_cases h : acc.any (fun p => p.1 = fn) = true
  · rw [if_pos h, List.find?_map]
    have hpg : ((fun p : String × List Match => decide (p.1 = fn2)) ∘
        (fun p : String × List Match => if p.1 = fn then (p.1, p.2 ++ [m]) else p)) =
        (fun p : String × List Match => decide (p.1 = fn2)) := by
      funext p
      by_cases hp : p.1 = fn <;> simp [hp]
    rw [hpg]
    cases hf : acc.find? (fun p => p.1 = fn2) with
    | none => rfl
    | some p =>
      have hps := List.find?_some hf
      have hpfn : p.1 = fn2 := by simpa using hps
      have hnf : ¬ p.1 = fn := by rw [hpfn]; exact hne
      simp [hnf]
  · rw [if_neg h, List.find?_append]
    have : (fn, [m]).1 = fn2 ↔ False := by simp [Ne.symm hne]
    cases hf : acc.find? (fun p => p.1 = fn2) with
    | none => simp [List.find?, Ne.symm hne]
    | some p => rfl

/-- The match list accumulated for a key across the whole grouping fold:
what was there before, then one entry per result of that filename, in
result order. -/
theorem lookupD_sourcesByFile :
    ∀ (res : List SearchResult) (acc : List (String × List Match)) (fn : String),
      lookupD (sourcesByFile acc res) fn =
        lookupD acc fn ++ (res.filter (fun r => r.document.filename = fn)).map mkMatch := by
  intro res
  induction res with
  | nil =>
    intro acc fn
    simp [sourcesByFile]
  | cons r rest ih =>
    intro acc fn
    show lookupD (sourcesByFile (insertMatch acc r.document.filename (mkMatch r)) rest) fn = _
    rw [ih]
    by_cases hf : r.document.filename = fn
    · rw [hf, lookupD_insertMatch_same,
        List.filter_cons_of_pos (by simpa using hf), List.map_cons]
      simp
    · rw [lookupD_insertMatch_other _ _ _ _ (fun hc => hf hc.symm),
        List.filter_cons_of_neg (by simpa using hf)]

/-- Membership in the first-seen sequence. -/
theorem mem_firstSeenAux :
    ∀ (l seen : List String) (x : String),
      x ∈ firstSeenAux seen l ↔ (x ∈ l ∧ x ∉ seen) := by
  intro l
  induction l with
  | nil =>
    intro seen x
    simp [firstSeenAux]
  | cons a t ih =>
    intro seen x
    simp only [firstSeenAux]
    by_cases ha : a ∈ seen
    · rw [if_pos ha, ih]
      constructor
      · rintro ⟨h1, h2⟩
        exact ⟨List.mem_cons_of_mem a h1, h2⟩
      · rintro ⟨h1, h2⟩
        rcases List.mem_cons.mp h1 with rfl | h1
        · exact absurd ha h2
        · exact ⟨h1, h2⟩
    · rw [if_neg ha]
      rw [List.mem_cons, ih]
      constructor
      · rintro (rfl | ⟨h1, h2⟩)
        · exact ⟨List.mem_cons_self x t, ha⟩
        · exact ⟨List.mem_cons_of_mem a h1, fun hc => h2 (List.mem_cons_of_mem a hc)⟩
      · rintro ⟨h1, h2⟩
        rcases List.mem_cons.mp h1 with rfl | h1
        · exact Or.inl rfl
        · by_cases hx : x = a
          · exact Or.inl hx
          · exact Or.inr ⟨h1, by simp [List.mem_cons, hx, h2]⟩

/-- The first-seen sequence has no duplicates. -/
theorem nodup_firstSeenAux : ∀ (l seen : List String), (firstSeenAux seen l).Nodup := by
  intro l
  induction l with
  | nil => intro seen; simp [firstSeenAux]
  | cons a t ih =>
    intro seen
    simp only [firstSeenAux]
    by_cases ha : a ∈ seen
    · rw [if_pos ha]
      exact ih seen
    · rw [if_neg ha]
      refine List.nodup_cons.mpr ⟨?_, ih (a :: seen)⟩
      intro hmem
      exact ((mem_firstSeenAux t (a :: seen) a).mp hmem).2 (List.mem_cons_self a seen)

/-- In an association list with distinct keys, lookup of a member's key
yields that member's value. -/
theorem lookupD_of_mem_nodup :
    ∀ (assoc : List (String × List Match)) (p : String × List Match),
      (assoc.map (·.1)).Nodup → p ∈ assoc → lookupD assoc p.1 = p.2 := by
  intro assoc
  induction assoc with
  | nil =>
    intro p _ hp
    exact absurd hp (List.not_mem_nil p)
  | cons q rest ih =>
    intro p hnd hp
    rw [List.map_cons, List.nodup_cons] at hnd
    rcases List.mem_cons.mp hp with rfl | hp
    · unfold lookupD
      simp [List.find?]
    · have hne : ¬ q.1 = p.1 := by
        intro hc
        exact hnd.1 (hc ▸ List.mem_map_of_mem (·.1) hp)
      unfold lookupD
      rw [List.find?_cons_of_neg _ (by simpa using hne)]
      exact ih p hnd.2 hp

/-- C9: for a non-empty ranked result list, the source groups are one
per distinct filename of the results in first-seen order, each holding
the first at most 3 matches of that filename in result order, each match
being the 200-character-truncated chunk text plus an ellipsis together
with the chunk id. -/
theorem source_groups_first_seen_capped :
    ∀ results : List SearchResult, results ≠ [] →
      (groupSources results).map (·.filename) =
        firstSeenAux [] (results.map (fun r => r.document.filename)) ∧
      ((groupSources results).map (·.filename)).Nodup ∧
      (∀ fn, fn ∈ (groupSources results).map (·.filename) ↔
        fn ∈ results.map (fun r => r.document.filename)) ∧
      (∀ g ∈ groupSources results,
        g.matchesList =
          ((results.filter (fun r => r.document.filename = g.filename)).map mkMatch).take 3 ∧
        g.matchesList.length ≤ 3 ∧
        (∀ m ∈ g.matchesList, ∃ r ∈ results, r.document.filename = g.filename ∧
          m.text = strTake r.document.text 200 ++ "..." ∧
          m.chunk_id = r.document.chunk_id)) := by
  intro results _
  have hkeys : (groupSources results).map (·.filename) =
      (sourcesByFile [] results).map (·.1) := by
    unfold groupSources
    rw [List.map_map]
    rfl
  have hkeys2 : (groupSources results).map (·.filename) =
      firstSeenAux [] (results.map (fun r => r.document.filename)) := by
    rw [hkeys, keys_sourcesByFile results []]
    rfl
  have hndkeys : ((groupSources results).map (·.filename)).Nodup := by
    rw [hkeys2]
    exact nodup_firstSeenAux _ []
  refine ⟨hkeys2, hndkeys, ?_, ?_⟩
  · intro fn
    rw [hkeys2, mem_firstSeenAux]
    simp
  · intro g hg
    obtain ⟨p, hp, rfl⟩ := List.mem_map.mp hg
    have hlook : lookupD (sourcesByFile [] results) p.1 = p.2 := by
      refine lookupD_of_mem_nodup _ p ?_ hp
      have := hndkeys
      rw [hkeys] at this
      exact this
    have hval : p.2 = (results.filter (fun r => r.document.filename = p.1)).map mkMatch := by
      have h := lookupD_sourcesByFile results [] p.1
      rw [hlook] at h
      simpa [lookupD, List.find?] using h
    constructor
    · show p.2.take 3 = _
      rw [hval]
    constructor
    · exact List.length_take_le 3 p.2
    · intro m hm
      have hm2 : m ∈ p.2 := List.mem_of_mem_take hm
      rw [hval] at hm2
      obtain ⟨r, hr, rfl⟩ := List.mem_map.mp hm2
      have hrf := List.mem_filter.mp hr
      refine ⟨r, hrf.1, by simpa using hrf.2, rfl, rfl⟩

/-- C9 witness: the grouping contract at a concrete five-result list. -/
theorem source_groups_first_seen_capped_witness :
    (groupSources witnessResults).map (·.filename) =
      firstSeenAux [] (witnessResults.map (fun r => r.document.filename)) ∧
    ((groupSources witnessResults).map (·.filename)).Nodup ∧
    (∀ fn, fn ∈ (groupSources witnessResults).map (·.filename) ↔
      fn ∈ witnessResults.map (fun r => r.document.filename)) ∧
    (∀ g ∈ groupSources witnessResults,
      g.matchesList =
        ((witnessResults.filter (fun r => r.document.filename = g.filename)).map mkMatch).take 3 ∧
      g.matchesList.length ≤ 3 ∧
      (∀ m ∈ g.matchesList, ∃ r ∈ witnessResults, r.document.filename = g.filename ∧
        m.text = strTake r.document.text 200 ++ "..." ∧
        m.chunk_id = r.document.chunk_id)) :=
  source_groups_first_seen_capped witnessResults (List.cons_ne_nil _ _)
